import Mathlib

/-!
Shallow embedding of the trajectory stepping engine of
`monte_carlo_simulation.py` (class `Simulation`), over exact rationals.

Modelling conventions:
* Python floats are embedded as `ℚ`; `np.sqrt` is passed around as an
  explicit function argument `s : ℚ → ℚ` (the source calls it only to
  produce distances).  Concrete evaluations instantiate `s` with a finite
  table that is certified, inside the corresponding theorem, to be the
  exact square root at every argument the evaluation ever feeds it.
* `np.random.rand()` is an explicit stream `rand : ℕ → ℚ` consumed at an
  index that the stepping function threads through and returns.
* External collaborators excluded by the engine (the `Frame` sampling
  methods, `Bandstructure` data, the samplers `_scatter` and friends whose
  own internals are modelled separately) appear as fields of `Env`.
* Python dict keys are object identities; `Edge.eid : ℕ` models the
  identity of an `Edge` object.
* A zero denominator in the two-line intersection formulas yields
  non-finite floats in the source, which then always fail the
  `0 <= t <= 1` validity window (or are filtered by `isnan`); this is
  modelled by returning `none`.
-/

/-- TrajectoryState, mirroring the `IntEnum` of the source (values 1..11). -/
inductive TrajectoryState where
  | INJECTING
  | PROPAGATE
  | COLLISION
  | SCATTER
  | REFLECT
  | ABSORBED
  | CCOLLISION
  | CSCATTER
  | CREFLECT
  | CABSORBED
  | ERROR
deriving DecidableEq, Fintype, Repr

/-- Integer value of each state, exactly the `IntEnum` values of the source. -/
def TrajectoryState.val : TrajectoryState → ℕ
  | .INJECTING => 1
  | .PROPAGATE => 2
  | .COLLISION => 3
  | .SCATTER => 4
  | .REFLECT => 5
  | .ABSORBED => 6
  | .CCOLLISION => 7
  | .CSCATTER => 8
  | .CREFLECT => 9
  | .CABSORBED => 10
  | .ERROR => 11

/-- ALL_STATES = set(range(11)), verbatim from the source. -/
def ALL_STATES : Finset ℕ := Finset.range 11

/-- Boundary segment (`Edge` of the geometry layer) as the stepping engine
sees it: endpoint coordinates `xs`, `ys`, outward `normal`, integer `layer`,
and an identity `eid` modelling the Python object identity used as dict key. -/
structure Edge where
  eid : ℕ
  xs : ℚ × ℚ
  ys : ℚ × ℚ
  normal : ℚ × ℚ
  layer : ℤ
deriving DecidableEq, Repr

/-- A recorded waypoint: the tuple `(n_f, x, y, state, edge-or-None)`. -/
structure Waypoint where
  nf : ℕ × ℚ
  x : ℚ
  y : ℚ
  state : TrajectoryState
  edge : Option Edge
deriving DecidableEq, Repr

/-- An intersection annotated with its distance from the step start,
the tuple `(edge, x_int, y_int, S)` built in `_get_sorted_intersections`. -/
structure SHit where
  edge : Edge
  xInt : ℚ
  yInt : ℚ
  dist : ℚ
deriving DecidableEq, Repr

/-- The numeric bias `1E-10` used in `_get_intersections`. -/
def biasEps : ℚ := 1 / 10 ^ 10

/-- The message of the `ValueError` raised when `run_simulation` unpacks the
bare error-path return of `_step_position`. -/
def valueErrorMsg : String := "ValueError: not enough values to unpack"

/-- The message of the exception raised by `_specular` when no reflection
target exists (the apostrophe of the original text is dropped). -/
def specularErrorMsg : String := "Cant find an intersection for specular reflection"

/-- Embedding of `Simulation.get_ts_us`: the parametric positions `(t, u)` of
the crossing of two line segments.  A zero denominator makes both outputs
non-finite in the source, so that they always fail the `[0, 1]` window test;
this is modelled by `none`. -/
def get_ts_us (x01 x02 x23 y01 y02 y23 : ℚ) : Option (ℚ × ℚ) :=
  let den := x01 * y23 - y01 * x23
  if den = 0 then none
  else some ((x02 * y23 - y02 * x23) / den, -(x01 * y02 - y01 * x02) / den)

/-- Embedding of `Simulation._calc_int_of_two_lines`: intersection point of the
two infinite lines through the given coordinate pairs; `none` models the
`(np.nan, np.nan)` return on a zero denominator. -/
def calc_int_of_two_lines (l0a l0b l1a l1b : ℚ × ℚ) : Option (ℚ × ℚ) :=
  let x1 := l0a.1; let y1 := l0a.2
  let x2 := l0b.1; let y2 := l0b.2
  let x3 := l1a.1; let y3 := l1a.2
  let x4 := l1b.1; let y4 := l1b.2
  let den := (x1 - x2) * (y3 - y4) - (y1 - y2) * (x3 - x4)
  if den = 0 then none
  else
    some (((x1 * y2 - y1 * x2) * (x3 - x4) - (x1 - x2) * (x3 * y4 - y3 * x4)) / den,
          ((x1 * y2 - y1 * x2) * (y3 - y4) - (y1 - y2) * (x3 * y4 - y3 * x4)) / den)

/-- Embedding of `Simulation._get_intersections`.  For each edge of the frame
it solves the two-segment crossing, keeps it when `t` and `u` both lie in
`[0, 1]`, the step direction opposes the outward normal of the edge
(negative dot product), and the crossing is not the step start itself; when
`bias` is set the reported point is shifted by `1E-10` times the unit step
direction, subtracted (that is, back towards the step start).  The frame
precomputation contract gives `px0 = xs[0]`, `x23 = xs[0] - xs[1]` and
likewise in `y`. -/
def get_intersections (s : ℚ → ℚ) (edges : List Edge) (p pNew : ℚ × ℚ)
    (bias : Bool) : List (Edge × ℚ × ℚ) :=
  let xDel := pNew.1 - p.1
  let yDel := pNew.2 - p.2
  edges.filterMap (fun e =>
    match get_ts_us (-xDel) (p.1 - e.xs.1) (e.xs.1 - e.xs.2)
                    (-yDel) (p.2 - e.ys.1) (e.ys.1 - e.ys.2) with
    | none => none
    | some (t, u) =>
      if 0 ≤ t ∧ t ≤ 1 ∧ 0 ≤ u ∧ u ≤ 1 then
        if xDel * e.normal.1 + yDel * e.normal.2 < 0 then
          let xInt := e.xs.1 + u * (e.xs.2 - e.xs.1)
          let yInt := e.ys.1 + u * (e.ys.2 - e.ys.1)
          if xInt ≠ p.1 ∨ yInt ≠ p.2 then
            if bias then
              let n := s (xDel ^ 2 + yDel ^ 2)
              some (e, xInt - biasEps * xDel / n, yInt - biasEps * yDel / n)
            else
              some (e, xInt, yInt)
          else none
        else none
      else none)

/-- Stable ascending insertion of one annotated hit, auxiliary model of the
stable sort performed by the builtin `sorted` with key `S`. -/
def insertAsc (a : SHit) : List SHit → List SHit
  | [] => [a]
  | b :: rest => if a.dist ≤ b.dist then a :: b :: rest else b :: insertAsc a rest

/-- Stable ascending insertion sort on the `dist` field, modelling the builtin
stable `sorted(..., key=S)`. -/
def sortAsc : List SHit → List SHit
  | [] => []
  | a :: rest => insertAsc a (sortAsc rest)

/-- Embedding of `Simulation._get_sorted_intersections`: annotate every
intersection with its Euclidean distance `S` from the step start and sort
ascending by `S` when there are at least two. -/
def get_sorted_intersections (s : ℚ → ℚ) (edges : List Edge) (p pNew : ℚ × ℚ) :
    List SHit :=
  let withS := (get_intersections s edges p pNew true).map
    (fun q => SHit.mk q.1 q.2.1 q.2.2 (s ((q.2.1 - p.1) ^ 2 + (q.2.2 - p.2) ^ 2)))
  if withS.length < 2 then withS else sortAsc withS

/-- Embedding of `Simulation._get_crosses`: auxiliary ohmic lines crossed by
the step, with the same `t`, `u` window test but no normal filter, no bias and
no start-point exclusion. -/
def get_crosses (lines : List Edge) (p pNew : ℚ × ℚ) : List Edge :=
  let xDel := pNew.1 - p.1
  let yDel := pNew.2 - p.2
  lines.filterMap (fun e =>
    match get_ts_us (-xDel) (p.1 - e.xs.1) (e.xs.1 - e.xs.2)
                    (-yDel) (p.2 - e.ys.1) (e.ys.1 - e.ys.2) with
    | none => none
    | some (t, u) =>
      if 0 ≤ t ∧ t ≤ 1 ∧ 0 ≤ u ∧ u ≤ 1 then some e else none)

/-- Embedding of `Simulation._get_n_f_intersection`: the Fermi index keeps its
bin and the fraction becomes
`n_f[1] * (1 - sqrt(dist(p, pInt)^2 / dist(p, pNew)^2))`. -/
def get_n_f_intersection (s : ℚ → ℚ) (nf : ℕ × ℚ) (p pInt pNew : ℚ × ℚ) :
    ℕ × ℚ :=
  (nf.1, nf.2 * (1 - s (((pInt.1 - p.1) ^ 2 + (pInt.2 - p.2) ^ 2) /
                        ((pNew.1 - p.1) ^ 2 + (pNew.2 - p.2) ^ 2))))

/-- Distance used inside `_specular` between the projected current point
`(lx, ly)` and the surface sample coordinate of candidate bin `idx`. -/
def spec_dist (s : ℚ → ℚ) (r : ℕ → ℚ × ℚ) (lx ly : ℚ) (idx : ℕ) : ℚ :=
  s ((lx - (r idx).1) ^ 2 + (ly - (r idx).2) ^ 2)

/-- The minimum-tracking loop of `_specular`: walk the candidate list, skip
candidates on the current bin, and keep the candidate of strictly smallest
distance (first one wins ties), together with that distance. -/
def select_min (valid : ℕ × ℚ → Bool) (d : ℕ × ℚ → ℚ) :
    List (ℕ × ℚ) → Option ((ℕ × ℚ) × ℚ) → Option ((ℕ × ℚ) × ℚ)
  | [], acc => acc
  | tp :: rest, acc =>
      select_min valid d rest
        (if valid tp then
          match acc with
          | none => some (tp, d tp)
          | some (b, bd) => if d tp < bd then some (tp, d tp) else some (b, bd)
        else acc)

/-- Embedding of `Simulation._specular` (lines 307-334), taking the candidate
list produced by `_get_fermi_intersections` as an argument.  Projects the
current Fermi point, scans the candidates for the nearest one on a different
bin, and fails with the reflection-construction error when none exists. -/
def specular (s : ℚ → ℚ) (r dr : ℕ → ℚ × ℚ) (nf : ℕ × ℚ)
    (fermiInts : List (ℕ × ℚ)) : Except String (ℕ × ℚ) :=
  let lx := (r nf.1).1 + (1 - nf.2) * (dr nf.1).1
  let ly := (r nf.1).2 + (1 - nf.2) * (dr nf.1).2
  match select_min (fun tp => tp.1 != nf.1) (fun tp => spec_dist s r lx ly tp.1)
      fermiInts none with
  | none => .error specularErrorMsg
  | some (b, _) => .ok b

/-- Embedding of the virtual-edge construction of `Simulation._corner_specular`
(lines 387-461): intersection point of the two edge lines, reference points at
distance 1000 from it on each edge line on the side nearer the particle point,
their midpoint, the slope computations, and the two endpoints of the virtual
edge that are finally fed to `Edge(...)`.  `none` models the undefined
intersection variables when the two edge lines are parallel. -/
def corner_virtual_edge (s : ℚ → ℚ) (r : ℕ → ℚ × ℚ) (nf : ℕ × ℚ)
    (e0 e1 : Edge) : Option ((ℚ × ℚ) × (ℚ × ℚ)) :=
  let x1 := e0.xs.1; let y1 := e0.ys.1
  let x2 := e0.xs.2; let y2 := e0.ys.2
  let x3 := e1.xs.1; let y3 := e1.ys.1
  let x4 := e1.xs.2; let y4 := e1.ys.2
  let den := (x1 - x2) * (y3 - y4) - (y1 - y2) * (x3 - x4)
  if den = 0 then none
  else
    let ix := ((x1 * y2 - y1 * x2) * (x3 - x4) - (x1 - x2) * (x3 * y4 - y3 * x4)) / den
    let iy := ((x1 * y2 - y1 * x2) * (y3 - y4) - (y1 - y2) * (x3 * y4 - y3 * x4)) / den
    let distA := s ((x1 - ix) ^ 2 + (y1 - iy) ^ 2)
    let distB := s ((x2 - ix) ^ 2 + (y2 - iy) ^ 2)
    let propA := 1000 / distA
    let propB := 1000 / distB
    let shAx := (ix - x1) * propA
    let shAy := (iy - y1) * propA
    let shBx := (ix - x3) * propB
    let shBy := (iy - y3) * propB
    let n1 := (ix + shAx, iy + shAy)
    let n2 := (ix - shAx, iy - shAy)
    let n3 := (ix + shBx, iy + shBy)
    let n4 := (ix - shBx, iy - shBy)
    let cur := r nf.1
    let d1 := s ((cur.1 - n1.1) ^ 2 + (cur.2 - n1.2) ^ 2)
    let d2 := s ((cur.1 - n2.1) ^ 2 + (cur.2 - n2.2) ^ 2)
    let d3 := s ((cur.1 - n3.1) ^ 2 + (cur.2 - n3.2) ^ 2)
    let d4 := s ((cur.1 - n4.1) ^ 2 + (cur.2 - n4.2) ^ 2)
    let q1 := if d1 > d2 then n2 else n1
    let q3 := if d3 > d4 then n4 else n3
    let mx := (q1.1 + q3.1) / 2
    let my := (q1.2 + q3.2) / 2
    let medianSlope := (ix - mx) / (iy - my)
    let perp := -1 / medianSlope
    let vx1 : ℚ := 1000
    let vy1 := ((vx1 - ix) * perp) / iy
    let vx2 : ℚ := -1000
    let vy2 := ((vx2 - ix) * perp) / iy
    some ((vx1, vy1), (vx2, vy2))

/-- Environment of a `Simulation` instance: the deep-copied geometry, the
band-structure data, the two probabilities, the random stream, and the
external samplers that `_step_position` delegates to (`_scatter`,
`_specular`, `_corner_scatter`, `_corner_specular`,
`frame.get_inject_position` and `edge.get_injection_index`), whose own
randomness is folded into the oracle fields. -/
structure Env where
  edges : List Edge
  ohmicLines : List Edge
  inDevice : ℚ → ℚ → Bool
  dr : ℕ → ℚ × ℚ
  nBins : ℕ
  pScatter : ℚ
  pOhmic : ℚ
  rand : ℕ → ℚ
  sqrtFn : ℚ → ℚ
  scatterFn : Edge → ℕ × ℚ
  specularFn : (ℕ × ℚ) → Edge → ℕ × ℚ
  cornerScatterFn : Edge → Edge → ℕ × ℚ
  cornerSpecularFn : (ℕ × ℚ) → Edge → Edge → ℤ → ℕ × ℚ
  injectPos : ℤ → (ℚ × ℚ) × Edge
  injIndex : Edge → ℕ × ℚ

/-- Return shape of `_step_position`: the normal path returns the pair
`(step_params, line_crosses)`; the debug out-of-bounds path returns a bare
one-element list of step parameters instead of such a pair. -/
inductive StepRet where
  | pair (steps : List Waypoint) (crosses : List Edge)
  | single (steps : List Waypoint)
deriving DecidableEq, Repr

/-- Unpacking `step_params, line_crosses = self._step_position(...)` performed
by `run_simulation`: a bare list of one waypoint cannot be unpacked into two
names, which raises a `ValueError` in Python. -/
def unpack_step : StepRet → Except String (List Waypoint × List Edge)
  | .pair sp cr => .ok (sp, cr)
  | .single _ => .error valueErrorMsg

/-- Single-edge branch of `_step_position` (lines 163-225): three-way split on
the layer of the struck edge, consuming one or two random draws. -/
def single_edge_branch (env : Env) (k : ℕ) (nf : ℕ × ℚ) (crosses : List Edge)
    (p pNew : ℚ × ℚ) (h0 : SHit) : StepRet × ℕ :=
  let e := h0.edge
  let nfInt := get_n_f_intersection env.sqrtFn nf p (h0.xInt, h0.yInt) pNew
  if e.layer = 0 then
    if env.rand k < env.pScatter then
      (.pair [⟨nfInt, h0.xInt, h0.yInt, .COLLISION, some e⟩,
              ⟨env.scatterFn e, h0.xInt, h0.yInt, .SCATTER, none⟩] crosses, k + 1)
    else
      (.pair [⟨nfInt, h0.xInt, h0.yInt, .COLLISION, some e⟩,
              ⟨env.specularFn nfInt e, h0.xInt, h0.yInt, .REFLECT, none⟩] crosses, k + 1)
  else if e.layer = 2 then
    if env.rand k < env.pOhmic then
      (.pair [⟨nfInt, h0.xInt, h0.yInt, .ABSORBED, some e⟩] crosses, k + 1)
    else
      if env.rand (k + 1) < env.pScatter then
        (.pair [⟨nfInt, h0.xInt, h0.yInt, .COLLISION, none⟩,
                ⟨env.scatterFn e, h0.xInt, h0.yInt, .SCATTER, none⟩] crosses, k + 2)
      else
        (.pair [⟨nfInt, h0.xInt, h0.yInt, .COLLISION, none⟩,
                ⟨env.specularFn nfInt e, h0.xInt, h0.yInt, .REFLECT, none⟩] crosses, k + 2)
  else
    if env.rand k < env.pOhmic then
      let inj := env.injectPos e.layer
      (.pair [⟨nfInt, h0.xInt, h0.yInt, .ABSORBED, some e⟩,
              ⟨env.injIndex inj.2, inj.1.1, inj.1.2, .INJECTING, none⟩] crosses, k + 1)
    else
      if env.rand (k + 1) < env.pScatter then
        (.pair [⟨nfInt, h0.xInt, h0.yInt, .COLLISION, none⟩,
                ⟨env.scatterFn e, h0.xInt, h0.yInt, .SCATTER, none⟩] crosses, k + 2)
      else
        (.pair [⟨nfInt, h0.xInt, h0.yInt, .COLLISION, none⟩,
                ⟨env.specularFn nfInt e, h0.xInt, h0.yInt, .REFLECT, none⟩] crosses, k + 2)

/-- Corner branch of `_step_position` (lines 226-297): the two closest
intersections coincide; the edge of higher layer is selected for counting
(`np.argmax` keeps the first index on ties) and the three-way split tests
`layer == 1`, `layer == 2`, otherwise generic, verbatim from the source. -/
def corner_branch (env : Env) (k : ℕ) (nf : ℕ × ℚ) (crosses : List Edge)
    (p pNew : ℚ × ℚ) (h0 h1 : SHit) : StepRet × ℕ :=
  let e0 := h0.edge
  let e1 := h1.edge
  let nfInt := get_n_f_intersection env.sqrtFn nf p (h0.xInt, h0.yInt) pNew
  let eCount := if e1.layer > e0.layer then e1 else e0
  let layer := eCount.layer
  if layer = 1 then
    if env.rand k < env.pScatter then
      (.pair [⟨nfInt, h0.xInt, h0.yInt, .CCOLLISION, some eCount⟩,
              ⟨env.cornerScatterFn e0 e1, h0.xInt, h0.yInt, .CSCATTER, none⟩] crosses, k + 1)
    else
      (.pair [⟨nfInt, h0.xInt, h0.yInt, .CCOLLISION, some eCount⟩,
              ⟨env.cornerSpecularFn nf e0 e1 layer, h0.xInt, h0.yInt, .CREFLECT, none⟩] crosses, k + 1)
  else if layer = 2 then
    if env.rand k < env.pOhmic then
      (.pair [⟨nfInt, h0.xInt, h0.yInt, .ABSORBED, some eCount⟩] crosses, k + 1)
    else
      if env.rand (k + 1) < env.pScatter then
        (.pair [⟨nfInt, h0.xInt, h0.yInt, .CCOLLISION, none⟩,
                ⟨env.cornerScatterFn e0 e1, h0.xInt, h0.yInt, .CSCATTER, none⟩] crosses, k + 2)
      else
        (.pair [⟨nfInt, h0.xInt, h0.yInt, .CCOLLISION, none⟩,
                ⟨env.cornerSpecularFn nf e0 e1 layer, h0.xInt, h0.yInt, .CREFLECT, none⟩] crosses, k + 2)
  else
    if env.rand k < env.pOhmic then
      let inj := env.injectPos layer
      (.pair [⟨nfInt, h0.xInt, h0.yInt, .CABSORBED, some eCount⟩,
              ⟨env.injIndex inj.2, inj.1.1, inj.1.2, .INJECTING, none⟩] crosses, k + 1)
    else
      if env.rand (k + 1) < env.pScatter then
        (.pair [⟨nfInt, h0.xInt, h0.yInt, .CCOLLISION, none⟩,
                ⟨env.cornerScatterFn e0 e1, h0.xInt, h0.yInt, .CSCATTER, none⟩] crosses, k + 2)
      else
        (.pair [⟨nfInt, h0.xInt, h0.yInt, .CCOLLISION, none⟩,
                ⟨env.cornerSpecularFn nf e0 e1 layer, h0.xInt, h0.yInt, .CREFLECT, none⟩] crosses, k + 2)

/-- Embedding of `Simulation._step_position` (lines 143-299).  The debug
containment check may return the bare error list; otherwise the position is
advanced by the chord of the current Fermi bin (`_update_position` inlined,
lines 301-305), intersections are collected and sorted, and the single-edge
or corner branch runs.  The returned `ℕ` is the next index into the random
stream. -/
def step_position (env : Env) (k : ℕ) (nf : ℕ × ℚ) (x y : ℚ) (debug : Bool) :
    StepRet × ℕ :=
  if debug && !(env.inDevice x y) then
    (.single [⟨nf, x, y, .ERROR, none⟩], k)
  else
    let nfNew : ℕ × ℚ := ((nf.1 + 1) % env.nBins, 1)
    let xNew := x + nf.2 * (env.dr nf.1).1
    let yNew := y + nf.2 * (env.dr nf.1).2
    let ints := get_sorted_intersections env.sqrtFn env.edges (x, y) (xNew, yNew)
    let crosses := get_crosses env.ohmicLines (x, y) (xNew, yNew)
    match ints with
    | [] => (.pair [⟨nfNew, xNew, yNew, .PROPAGATE, none⟩] crosses, k)
    | [h0] => single_edge_branch env k nf crosses (x, y) (xNew, yNew) h0
    | h0 :: h1 :: _ =>
      if h0.dist ≠ h1.dist then
        single_edge_branch env k nf crosses (x, y) (xNew, yNew) h0
      else
        corner_branch env k nf crosses (x, y) (xNew, yNew) h0 h1

/-- Projection of a `_step_position` return to the list of
(state, identity of the associated edge) pairs of its waypoints. -/
def ret_states : StepRet → List (TrajectoryState × Option ℕ)
  | .pair sp _ => sp.map (fun w => (w.state, w.edge.map Edge.eid))
  | .single sp => sp.map (fun w => (w.state, w.edge.map Edge.eid))

/-- The waypoint-retention filter of `run_simulation` (lines 116-129): a
waypoint is kept when the integer value of its state lies in the
caller-supplied set of stored states. -/
def store_filter (stored : Finset ℕ) (steps : List Waypoint) : List Waypoint :=
  steps.filter (fun w => decide (w.state.val ∈ stored))

/-- The while loop of `run_simulation` (lines 119-139) restricted to the data
the loop condition uses: repeatedly step from the last waypoint until its
state is `ABSORBED`; `fuel` bounds the iteration count, the bare error-shaped
return aborts (the unpacking raises), and the accumulated waypoint list is
returned together with the final random index. -/
def run_loop (env : Env) : ℕ → ℕ → (ℕ × ℚ) → ℚ → ℚ → Bool → List Waypoint →
    Option (List Waypoint × ℕ)
  | 0, _, _, _, _, _, _ => none
  | fuel + 1, k, nf, x, y, debug, acc =>
    match step_position env k nf x y debug with
    | (.single _, _) => none
    | (.pair sp _, k2) =>
      match sp.getLast? with
      | none => none
      | some w =>
        if w.state = .ABSORBED then some (acc ++ sp, k2)
        else run_loop env fuel k2 w.nf w.x w.y debug (acc ++ sp)

/-- Initial per-edge counter dictionary of `run_simulation` (lines 100-105):
a zero entry for every frame edge and every ohmic line, keyed by object
identity. -/
def init_counts (edges lines : List Edge) : ℕ → Option ℕ :=
  (edges ++ lines).foldl (fun d e => fun j => if j = e.eid then some 0 else d j)
    (fun _ => none)

/-- One dictionary update `if edge in edge_to_count: edge_to_count[edge] += 1`:
keys absent from the dictionary are left untouched. -/
def bump_count (d : ℕ → Option ℕ) (k : ℕ) : ℕ → Option ℕ :=
  fun j => if j = k then (d k).map (· + 1) else d j

/-- Counter update for one waypoint (lines 131-134): nothing happens when the
associated edge is `None`; otherwise the checked increment runs. -/
def record_waypoint (d : ℕ → Option ℕ) (w : Waypoint) : ℕ → Option ℕ :=
  match w.edge with
  | none => d
  | some e => bump_count d e.eid

/-- Counter updates of one loop iteration of `run_simulation` (lines 131-137):
first every waypoint of the step, then every crossed ohmic line. -/
def step_counts (d : ℕ → Option ℕ) (steps : List Waypoint) (crosses : List Edge) :
    ℕ → Option ℕ :=
  crosses.foldl (fun d2 e => bump_count d2 e.eid) (steps.foldl record_waypoint d)

/-- Square-root table for the corner and grounded-edge scenarios below; the
theorems that use it certify it against its arguments. -/
def sqrtTab1 : ℚ → ℚ := fun q =>
  if q = 4 then 2
  else if q = (1 - biasEps) ^ 2 then 1 - biasEps
  else if q = (1 - biasEps) ^ 2 / 4 then (1 - biasEps) / 2
  else 0

/-- Square-root table for the intersection-bias scenario. -/
def s4tab : ℚ → ℚ := fun q => if q = 25 then 5 else 0

/-- Square-root table for the truncated-step fraction scenario. -/
def s5tab : ℚ → ℚ := fun q => if q = 1 / 16 then 1 / 4 else 0

/-- Square-root table for the corner virtual-edge scenario. -/
def s8tab : ℚ → ℚ := fun q =>
  if q = 1 then 1
  else if q = 9 then 3
  else if q = 1000000 then 1000
  else if q = 1000000 / 9 then 1000 / 3
  else 0

/-- Horizontal device edge from (-2, 1) to (0, 1), outward normal (0, -1),
layer 0: the first corner segment. -/
def e0C1 : Edge := ⟨0, (-2, 0), (1, 1), (0, -1), 0⟩

/-- Device edge from (0, 1) to (3, 5), outward normal (4/5, -3/5), layer 0:
the second corner segment, sharing the vertex (0, 1). -/
def e1C1 : Edge := ⟨1, (0, 3), (1, 5), (4 / 5, -3 / 5), 0⟩

/-- Grounded edge (layer 2) with the geometry of `e0C1`. -/
def egC6 : Edge := ⟨0, (-2, 0), (1, 1), (0, -1), 2⟩

/-- Device edge from (0, 2) to (4, 2), outward normal (0, -1), crossed by the
step (0,0) to (3,4) at (3/2, 2). -/
def e4c : Edge := ⟨0, (0, 4), (2, 2), (0, -1), 0⟩

/-- Corner segment from (1, 2) to (3, 2) for the virtual-edge scenario. -/
def e8a : Edge := ⟨0, (1, 3), (2, 2), (0, -1), 0⟩

/-- Corner segment from (0, 1) to (0, 5) for the virtual-edge scenario. -/
def e8b : Edge := ⟨1, (0, 0), (1, 5), (1, 0), 0⟩

/-- Fermi-surface sample coordinates for the virtual-edge scenario: the
particle point is (0, 2). -/
def r8 : ℕ → ℚ × ℚ := fun _ => (0, 2)

/-- Base environment with trivial oracles, specialised by the scenarios. -/
def baseEnv : Env where
  edges := []
  ohmicLines := []
  inDevice := fun _ _ => true
  dr := fun _ => (0, 2)
  nBins := 1
  pScatter := 1
  pOhmic := 1
  rand := fun _ => 0
  sqrtFn := sqrtTab1
  scatterFn := fun _ => (0, 1)
  specularFn := fun _ _ => (0, 1)
  cornerScatterFn := fun _ _ => (0, 1)
  cornerSpecularFn := fun _ _ _ _ => (0, 1)
  injectPos := fun _ => ((7, 7), ⟨5, (7, 7), (7, 7), (0, 1), 3⟩)
  injIndex := fun _ => (0, 1)

/-- Environment whose step from (0, 0) hits the corner (0, 1) shared by the
two layer-0 device edges `e0C1` and `e1C1`, with `p_ohmic_absorb = 1`. -/
def envC1 : Env := { baseEnv with edges := [e0C1, e1C1] }

/-- Environment whose step from (0, 0) hits the single grounded edge `egC6`
with `p_ohmic_absorb = 0` (the absorption draw fails) and `p_scatter = 1`. -/
def envC6 : Env := { baseEnv with edges := [egC6], pOhmic := 0 }

/-- Environment whose step from (0, 0) hits the single grounded edge `egC6`
with `p_ohmic_absorb = 1`: the particle is absorbed at once. -/
def envG : Env := { baseEnv with edges := [egC6] }

/-- Environment whose containment test always fails, for the debug path. -/
def envOut : Env := { baseEnv with inDevice := fun _ _ => false }

/-- Waypoint list of either return shape of `_step_position`. -/
def ret_steps : StepRet → List Waypoint
  | .pair sp _ => sp
  | .single sp => sp

/-- The possible waypoint lists a normal `_step_position` return can carry,
one disjunct per leaf of the branching block: free propagation; device-edge
collision with scatter or reflect; grounded absorption; non-absorbing
collision at an ohmic layer; floating absorption with re-injection; and the
corner counterparts. -/
def BranchShape (sp : List Waypoint) : Prop :=
  (∃ w, sp = [w] ∧ w.state = .PROPAGATE ∧ w.edge = none) ∨
  (∃ w1 w2 e, sp = [w1, w2] ∧ w1.state = .COLLISION ∧ w1.edge = some e ∧
    e.layer = 0 ∧ (w2.state = .SCATTER ∨ w2.state = .REFLECT) ∧ w2.edge = none) ∨
  (∃ w e, sp = [w] ∧ w.state = .ABSORBED ∧ w.edge = some e ∧ e.layer = 2) ∨
  (∃ w1 w2, sp = [w1, w2] ∧ w1.state = .COLLISION ∧ w1.edge = none ∧
    (w2.state = .SCATTER ∨ w2.state = .REFLECT) ∧ w2.edge = none) ∨
  (∃ w1 w2 e, sp = [w1, w2] ∧ w1.state = .ABSORBED ∧ w1.edge = some e ∧
    e.layer ≠ 0 ∧ e.layer ≠ 2 ∧ w2.state = .INJECTING ∧ w2.edge = none) ∨
  (∃ w1 w2 e, sp = [w1, w2] ∧ w1.state = .CCOLLISION ∧ w1.edge = some e ∧
    e.layer = 1 ∧ (w2.state = .CSCATTER ∨ w2.state = .CREFLECT) ∧ w2.edge = none) ∨
  (∃ w1 w2, sp = [w1, w2] ∧ w1.state = .CCOLLISION ∧ w1.edge = none ∧
    (w2.state = .CSCATTER ∨ w2.state = .CREFLECT) ∧ w2.edge = none) ∨
  (∃ w1 w2 e, sp = [w1, w2] ∧ w1.state = .CABSORBED ∧ w1.edge = some e ∧
    e.layer ≠ 1 ∧ e.layer ≠ 2 ∧ w2.state = .INJECTING ∧ w2.edge = none)

/-- Pointwise dictionary order: same key set, values non-decreasing. -/
def CLe (d d2 : ℕ → Option ℕ) : Prop :=
  ∀ j, (d j = none ↔ d2 j = none) ∧ ∀ v, d j = some v → ∃ v2, d2 j = some v2 ∧ v ≤ v2

/-- The trajectory produced by one grounded-absorption run of the loop. -/
def trajG : List Waypoint := ((run_loop envG 1 0 (0, 1) 0 0 false []).getD ([], 0)).1

/-- The single biased intersection of the step (0,0) to (3,4) with `e4c`. -/
def c4hit : Edge × ℚ × ℚ := (get_intersections s4tab [e4c] (0, 0) (3, 4) true).headD (e4c, 0, 0)

/-- The waypoint list produced by the layer-0 corner scenario step. -/
def spC1 : List Waypoint := ret_steps (step_position envC1 0 (0, 1) 0 0 false).1

theorem single_edge_branch_shape (env : Env) (k : ℕ) (nf : ℕ × ℚ)
    (crosses : List Edge) (p pNew : ℚ × ℚ) (h0 : SHit)
    (sp : List Waypoint) (cr : List Edge) (k2 : ℕ)
    (h : single_edge_branch env k nf crosses p pNew h0 = (.pair sp cr, k2)) :
    BranchShape sp := by
  unfold BranchShape
  simp only [single_edge_branch] at h
  split_ifs at h with hL0 hSc hL2 hAb hSc2 hAb2 hSc3 <;>
    (simp only [Prod.mk.injEq, StepRet.pair.injEq] at h
     obtain ⟨⟨hsp, -⟩, -⟩ := h
     subst hsp)
  · exact Or.inr (Or.inl ⟨_, _, h0.edge, rfl, rfl, rfl, hL0, Or.inl rfl, rfl⟩)
  · exact Or.inr (Or.inl ⟨_, _, h0.edge, rfl, rfl, rfl, hL0, Or.inr rfl, rfl⟩)
  · exact Or.inr (Or.inr (Or.inl ⟨_, h0.edge, rfl, rfl, rfl, hL2⟩))
  · exact Or.inr (Or.inr (Or.inr (Or.inl ⟨_, _, rfl, rfl, rfl, Or.inl rfl, rfl⟩)))
  · exact Or.inr (Or.inr (Or.inr (Or.inl ⟨_, _, rfl, rfl, rfl, Or.inr rfl, rfl⟩)))
  · exact Or.inr (Or.inr (Or.inr (Or.inr (Or.inl
      ⟨_, _, h0.edge, rfl, rfl, rfl, hL0, hL2, rfl, rfl⟩))))
  · exact Or.inr (Or.inr (Or.inr (Or.inl ⟨_, _, rfl, rfl, rfl, Or.inl rfl, rfl⟩)))
  · exact Or.inr (Or.inr (Or.inr (Or.inl ⟨_, _, rfl, rfl, rfl, Or.inr rfl, rfl⟩)))

theorem corner_branch_shape (env : Env) (k : ℕ) (nf : ℕ × ℚ)
    (crosses : List Edge) (p pNew : ℚ × ℚ) (h0 h1 : SHit)
    (sp : List Waypoint) (cr : List Edge) (k2 : ℕ)
    (h : corner_branch env k nf crosses p pNew h0 h1 = (.pair sp cr, k2)) :
    BranchShape sp := by
  unfold BranchShape
  simp only [corner_branch] at h
  by_cases hgt : h1.edge.layer > h0.edge.layer <;>
    simp only [hgt, if_true, if_false] at h <;>
    split_ifs at h with hL1 hSc hL2 hAb hSc2 hAb2 hSc3 <;>
      (simp only [Prod.mk.injEq, StepRet.pair.injEq] at h
       obtain ⟨⟨hsp, -⟩, -⟩ := h
       subst hsp)
  · exact Or.inr (Or.inr (Or.inr (Or.inr (Or.inr (Or.inl
      ⟨_, _, h1.edge, rfl, rfl, rfl, hL1, Or.inl rfl, rfl⟩)))))
  · exact Or.inr (Or.inr (Or.inr (Or.inr (Or.inr (Or.inl
      ⟨_, _, h1.edge, rfl, rfl, rfl, hL1, Or.inr rfl, rfl⟩)))))
  · exact Or.inr (Or.inr (Or.inl ⟨_, h1.edge, rfl, rfl, rfl, hL2⟩))
  · exact Or.inr (Or.inr (Or.inr (Or.inr (Or.inr (Or.inr (Or.inl
      ⟨_, _, rfl, rfl, rfl, Or.inl rfl, rfl⟩))))))
  · exact Or.inr (Or.inr (Or.inr (Or.inr (Or.inr (Or.inr (Or.inl
      ⟨_, _, rfl, rfl, rfl, Or.inr rfl, rfl⟩))))))
  · exact Or.inr (Or.inr (Or.inr (Or.inr (Or.inr (Or.inr (Or.inr
      ⟨_, _, h1.edge, rfl, rfl, rfl, hL1, hL2, rfl, rfl⟩))))))
  · exact Or.inr (Or.inr (Or.inr (Or.inr (Or.inr (Or.inr (Or.inl
      ⟨_, _, rfl, rfl, rfl, Or.inl rfl, rfl⟩))))))
  · exact Or.inr (Or.inr (Or.inr (Or.inr (Or.inr (Or.inr (Or.inl
      ⟨_, _, rfl, rfl, rfl, Or.inr rfl, rfl⟩))))))
  · exact Or.inr (Or.inr (Or.inr (Or.inr (Or.inr (Or.inl
      ⟨_, _, h0.edge, rfl, rfl, rfl, hL1, Or.inl rfl, rfl⟩)))))
  · exact Or.inr (Or.inr (Or.inr (Or.inr (Or.inr (Or.inl
      ⟨_, _, h0.edge, rfl, rfl, rfl, hL1, Or.inr rfl, rfl⟩)))))
  · exact Or.inr (Or.inr (Or.inl ⟨_, h0.edge, rfl, rfl, rfl, hL2⟩))
  · exact Or.inr (Or.inr (Or.inr (Or.inr (Or.inr (Or.inr (Or.inl
      ⟨_, _, rfl, rfl, rfl, Or.inl rfl, rfl⟩))))))
  · exact Or.inr (Or.inr (Or.inr (Or.inr (Or.inr (Or.inr (Or.inl
      ⟨_, _, rfl, rfl, rfl, Or.inr rfl, rfl⟩))))))
  · exact Or.inr (Or.inr (Or.inr (Or.inr (Or.inr (Or.inr (Or.inr
      ⟨_, _, h0.edge, rfl, rfl, rfl, hL1, hL2, rfl, rfl⟩))))))
  · exact Or.inr (Or.inr (Or.inr (Or.inr (Or.inr (Or.inr (Or.inl
      ⟨_, _, rfl, rfl, rfl, Or.inl rfl, rfl⟩))))))
  · exact Or.inr (Or.inr (Or.inr (Or.inr (Or.inr (Or.inr (Or.inl
      ⟨_, _, rfl, rfl, rfl, Or.inr rfl, rfl⟩))))))

theorem step_position_shape (env : Env) (k : ℕ) (nf : ℕ × ℚ) (x y : ℚ)
    (dbg : Bool) (sp : List Waypoint) (cr : List Edge) (k2 : ℕ)
    (h : step_position env k nf x y dbg = (.pair sp cr, k2)) :
    BranchShape sp := by
  simp only [step_position] at h
  split_ifs at h with hdbg
  · simp at h
  · split at h
    · simp only [Prod.mk.injEq, StepRet.pair.injEq] at h
      obtain ⟨⟨hsp, -⟩, -⟩ := h
      subst hsp
      exact Or.inl ⟨_, rfl, rfl, rfl⟩
    · exact single_edge_branch_shape _ _ _ _ _ _ _ _ _ _ h
    · split_ifs at h with hd
      · exact single_edge_branch_shape _ _ _ _ _ _ _ _ _ _ h
      · exact corner_branch_shape _ _ _ _ _ _ _ _ _ _ _ h

theorem shape_conclusions (sp : List Waypoint) (h : BranchShape sp) :
    sp ≠ [] ∧
    (∀ w, sp.getLast? = some w →
      (w.state = .ABSORBED ↔ ∃ e, w.edge = some e ∧ e.layer = 2)) ∧
    ((∃ w ∈ sp, (w.state = .ABSORBED ∨ w.state = .CABSORBED) ∧
        ∃ e, w.edge = some e ∧ e.layer ≠ 2) →
      ∃ wl, sp.getLast? = some wl ∧ wl.state = .INJECTING) ∧
    (∀ w ∈ sp.tail, w.edge = none) ∧
    (sp.filter (fun w => w.edge.isSome)).length ≤ 1 := by
  rcases h with ⟨w, rfl, hs, he⟩ |
    ⟨w1, w2, e, rfl, hs1, he1, hl, hs2, he2⟩ |
    ⟨w, e, rfl, hs, he, hl⟩ |
    ⟨w1, w2, rfl, hs1, he1, hs2, he2⟩ |
    ⟨w1, w2, e, rfl, hs1, he1, hl0, hl2, hs2, he2⟩ |
    ⟨w1, w2, e, rfl, hs1, he1, hl, hs2, he2⟩ |
    ⟨w1, w2, rfl, hs1, he1, hs2, he2⟩ |
    ⟨w1, w2, e, rfl, hs1, he1, hl1, hl2, hs2, he2⟩
  · refine ⟨by simp, ?_, ?_, by simp, by simp [List.filter, he]⟩
    · intro w0 hw0
      simp only [List.getLast?] at hw0
      obtain rfl : w = w0 := by injection hw0
      simp [hs, he]
    · rintro ⟨w0, hw0, hst, e0, hee, -⟩
      simp only [List.mem_singleton] at hw0
      subst hw0
      rw [he] at hee
      cases hee
  · refine ⟨by simp, ?_, ?_, by simp [he2], ?_⟩
    · intro w0 hw0
      simp only [List.getLast?] at hw0
      obtain rfl : w2 = w0 := by injection hw0
      rcases hs2 with h2 | h2 <;> simp [h2, he2]
    · rintro ⟨w0, hw0, hst, e0, hee, -⟩
      simp only [List.mem_cons, List.mem_singleton, List.not_mem_nil, or_false] at hw0
      rcases hw0 with rfl | rfl
      · rcases hst with h2 | h2 <;> simp [hs1] at h2
      · rcases hs2 with h2 | h2 <;> rcases hst with h3 | h3 <;> simp [h2] at h3
    · simp [List.filter, he1, he2]
  · refine ⟨by simp, ?_, ?_, by simp, by simp [List.filter, he]⟩
    · intro w0 hw0
      simp only [List.getLast?] at hw0
      obtain rfl : w = w0 := by injection hw0
      exact ⟨fun _ => ⟨e, he, hl⟩, fun _ => hs⟩
    · rintro ⟨w0, hw0, hst, e0, hee, hne⟩
      simp only [List.mem_singleton] at hw0
      subst hw0
      rw [he] at hee
      obtain rfl : e = e0 := by injection hee
      exact absurd hl hne
  · refine ⟨by simp, ?_, ?_, by simp [he2], by simp [List.filter, he1, he2]⟩
    · intro w0 hw0
      simp only [List.getLast?] at hw0
      obtain rfl : w2 = w0 := by injection hw0
      rcases hs2 with h2 | h2 <;> simp [h2, he2]
    · rintro ⟨w0, hw0, hst, e0, hee, -⟩
      simp only [List.mem_cons, List.mem_singleton, List.not_mem_nil, or_false] at hw0
      rcases hw0 with rfl | rfl
      · rcases hst with h2 | h2 <;> simp [hs1] at h2
      · rcases hs2 with h2 | h2 <;> rcases hst with h3 | h3 <;> simp [h2] at h3
  · refine ⟨by simp, ?_, ?_, by simp [he2], by simp [List.filter, he1, he2]⟩
    · intro w0 hw0
      simp only [List.getLast?] at hw0
      obtain rfl : w2 = w0 := by injection hw0
      simp [hs2, he2]
    · intro hexist
      exact ⟨w2, by simp [List.getLast?], hs2⟩
  · refine ⟨by simp, ?_, ?_, by simp [he2], by simp [List.filter, he1, he2]⟩
    · intro w0 hw0
      simp only [List.getLast?] at hw0
      obtain rfl : w2 = w0 := by injection hw0
      rcases hs2 with h2 | h2 <;> simp [h2, he2]
    · rintro ⟨w0, hw0, hst, e0, hee, -⟩
      simp only [List.mem_cons, List.mem_singleton, List.not_mem_nil, or_false] at hw0
      rcases hw0 with rfl | rfl
      · rcases hst with h2 | h2 <;> simp [hs1] at h2
      · rcases hs2 with h2 | h2 <;> rcases hst with h3 | h3 <;> simp [h2] at h3
  · refine ⟨by simp, ?_, ?_, by simp [he2], by simp [List.filter, he1, he2]⟩
    · intro w0 hw0
      simp only [List.getLast?] at hw0
      obtain rfl : w2 = w0 := by injection hw0
      rcases hs2 with h2 | h2 <;> simp [h2, he2]
    · rintro ⟨w0, hw0, hst, e0, hee, -⟩
      simp only [List.mem_cons, List.mem_singleton, List.not_mem_nil, or_false] at hw0
      rcases hw0 with rfl | rfl
      · rcases hst with h2 | h2 <;> simp [hs1] at h2
      · rcases hs2 with h2 | h2 <;> rcases hst with h3 | h3 <;> simp [h2] at h3
  · refine ⟨by simp, ?_, ?_, by simp [he2], by simp [List.filter, he1, he2]⟩
    · intro w0 hw0
      simp only [List.getLast?] at hw0
      obtain rfl : w2 = w0 := by injection hw0
      simp [hs2, he2]
    · intro hexist
      exact ⟨w2, by simp [List.getLast?], hs2⟩

theorem single_edge_branch_pair (env : Env) (k : ℕ) (nf : ℕ × ℚ)
    (crosses : List Edge) (p pNew : ℚ × ℚ) (h0 : SHit) :
    ∃ sp k2, single_edge_branch env k nf crosses p pNew h0 = (.pair sp crosses, k2) := by
  simp only [single_edge_branch]
  split_ifs <;> exact ⟨_, _, rfl⟩

theorem corner_branch_pair (env : Env) (k : ℕ) (nf : ℕ × ℚ)
    (crosses : List Edge) (p pNew : ℚ × ℚ) (h0 h1 : SHit) :
    ∃ sp k2, corner_branch env k nf crosses p pNew h0 h1 = (.pair sp crosses, k2) := by
  simp only [corner_branch]
  split_ifs <;> exact ⟨_, _, rfl⟩

theorem step_position_no_debug_pair (env : Env) (k : ℕ) (nf : ℕ × ℚ) (x y : ℚ) :
    ∃ sp cr, (step_position env k nf x y false).1 = .pair sp cr := by
  simp only [step_position, Bool.false_and, Bool.false_eq_true, if_false]
  split
  · exact ⟨_, _, rfl⟩
  · obtain ⟨sp, k2, hh⟩ := single_edge_branch_pair env k nf
      (get_crosses env.ohmicLines (x, y)
        (x + nf.2 * (env.dr nf.1).1, y + nf.2 * (env.dr nf.1).2)) (x, y)
      (x + nf.2 * (env.dr nf.1).1, y + nf.2 * (env.dr nf.1).2) _
    exact ⟨sp, _, by rw [hh]⟩
  · split_ifs
    · obtain ⟨sp, k2, hh⟩ := single_edge_branch_pair env k nf
        (get_crosses env.ohmicLines (x, y)
          (x + nf.2 * (env.dr nf.1).1, y + nf.2 * (env.dr nf.1).2)) (x, y)
        (x + nf.2 * (env.dr nf.1).1, y + nf.2 * (env.dr nf.1).2) _
      exact ⟨sp, _, by rw [hh]⟩
    · obtain ⟨sp, k2, hh⟩ := corner_branch_pair env k nf
        (get_crosses env.ohmicLines (x, y)
          (x + nf.2 * (env.dr nf.1).1, y + nf.2 * (env.dr nf.1).2)) (x, y)
        (x + nf.2 * (env.dr nf.1).1, y + nf.2 * (env.dr nf.1).2) _ _
      exact ⟨sp, _, by rw [hh]⟩

theorem run_loop_grounded (env : Env) (fuel : ℕ) :
    ∀ k nf x y dbg acc traj k2,
      run_loop env fuel k nf x y dbg acc = some (traj, k2) →
      ∃ wl e, traj.getLast? = some wl ∧ wl.state = .ABSORBED ∧
        wl.edge = some e ∧ e.layer = 2 := by
  induction fuel with
  | zero =>
    intro k nf x y dbg acc traj k2 h
    simp [run_loop] at h
  | succ n ih =>
    intro k nf x y dbg acc traj k2 h
    rw [run_loop] at h
    rcases hstep : step_position env k nf x y dbg with ⟨ret, k3⟩
    rw [hstep] at h
    rcases ret with ⟨sp, cr⟩ | sp2
    · dsimp only at h
      rcases hlast : sp.getLast? with - | w
      · rw [hlast] at h
        simp at h
      · rw [hlast] at h
        dsimp only at h
        by_cases habs : w.state = TrajectoryState.ABSORBED
        · rw [if_pos habs] at h
          simp only [Option.some.injEq, Prod.mk.injEq] at h
          obtain ⟨htraj, -⟩ := h
          subst htraj
          have hshape := shape_conclusions sp
            (step_position_shape env k nf x y dbg sp cr k3 hstep)
          obtain ⟨e, hee, hle⟩ := (hshape.2.1 w hlast).mp habs
          refine ⟨w, e, ?_, habs, hee, hle⟩
          rw [List.getLast?_append_of_ne_nil acc (by rintro rfl; cases hlast)]
          exact hlast
        · rw [if_neg habs] at h
          exact ih _ _ _ _ _ _ _ _ h
    · dsimp only at h
      simp at h

theorem select_min_spec (valid : ℕ × ℚ → Bool) (d : ℕ × ℚ → ℚ) (l : List (ℕ × ℚ)) :
    ∀ acc, (acc = none ∨ ∃ b bd, acc = some (b, bd) ∧ bd = d b ∧ valid b = true) →
      (select_min valid d l acc = none → acc = none ∧ ∀ tp ∈ l, valid tp = false) ∧
      (∀ b bd, select_min valid d l acc = some (b, bd) →
        bd = d b ∧ valid b = true ∧ (b ∈ l ∨ acc = some (b, bd)) ∧
        (∀ tp ∈ l, valid tp = true → bd ≤ d tp) ∧
        (∀ b0 bd0, acc = some (b0, bd0) → bd ≤ bd0)) := by
  induction l with
  | nil =>
    intro acc hacc
    refine ⟨fun h => ⟨by simpa [select_min] using h, by simp⟩, ?_⟩
    intro b bd h
    simp only [select_min] at h
    subst h
    rcases hacc with h0 | ⟨b1, bd1, heq, hbd, hv⟩
    · cases h0
    · obtain ⟨rfl, rfl⟩ : b1 = b ∧ bd1 = bd := by
        simpa [Prod.mk.injEq] using heq.symm
      exact ⟨hbd, hv, Or.inr rfl, by simp, fun b0 bd0 h0 => by
        obtain ⟨-, rfl⟩ : b1 = b0 ∧ bd1 = bd0 := by
          simpa [Prod.mk.injEq] using h0
        exact le_refl _⟩
  | cons tp rest ih =>
    intro acc hacc
    by_cases hv : valid tp = true
    · rcases hacc with rfl | ⟨b1, bd1, rfl, hbd1, hbv1⟩
      · have hrw : select_min valid d (tp :: rest) none =
            select_min valid d rest (some (tp, d tp)) := by
          simp [select_min, hv]
        have H := ih (some (tp, d tp)) (Or.inr ⟨tp, d tp, rfl, rfl, hv⟩)
        constructor
        · intro h
          rw [hrw] at h
          obtain ⟨h1, -⟩ := H.1 h
          cases h1
        · intro b bd h
          rw [hrw] at h
          obtain ⟨hbd, hbv, hmem, hmin, haccle⟩ := H.2 b bd h
          refine ⟨hbd, hbv, ?_, ?_, ?_⟩
          · rcases hmem with hm | hm
            · exact Or.inl (List.mem_cons_of_mem _ hm)
            · obtain ⟨rfl, -⟩ : tp = b ∧ d tp = bd := by
                simpa [Prod.mk.injEq] using hm
              exact Or.inl (List.mem_cons_self _ _)
          · intro tp2 htp2 hv2
            rcases List.mem_cons.mp htp2 with rfl | hm
            · exact haccle tp2 (d tp2) rfl
            · exact hmin tp2 hm hv2
          · intro b0 bd0 h0
            cases h0
      · by_cases hlt : d tp < bd1
        · have hrw : select_min valid d (tp :: rest) (some (b1, bd1)) =
              select_min valid d rest (some (tp, d tp)) := by
            simp [select_min, hv, hlt]
          have H := ih (some (tp, d tp)) (Or.inr ⟨tp, d tp, rfl, rfl, hv⟩)
          constructor
          · intro h
            rw [hrw] at h
            obtain ⟨h1, -⟩ := H.1 h
            cases h1
          · intro b bd h
            rw [hrw] at h
            obtain ⟨hbd, hbv, hmem, hmin, haccle⟩ := H.2 b bd h
            refine ⟨hbd, hbv, ?_, ?_, ?_⟩
            · rcases hmem with hm | hm
              · exact Or.inl (List.mem_cons_of_mem _ hm)
              · obtain ⟨rfl, -⟩ : tp = b ∧ d tp = bd := by
                  simpa [Prod.mk.injEq] using hm
                exact Or.inl (List.mem_cons_self _ _)
            · intro tp2 htp2 hv2
              rcases List.mem_cons.mp htp2 with rfl | hm
              · exact haccle tp2 (d tp2) rfl
              · exact hmin tp2 hm hv2
            · intro b0 bd0 h0
              obtain ⟨-, rfl⟩ : b1 = b0 ∧ bd1 = bd0 := by
                simpa [Prod.mk.injEq] using h0
              exact le_trans (haccle tp (d tp) rfl) (le_of_lt hlt)
        · have hrw : select_min valid d (tp :: rest) (some (b1, bd1)) =
              select_min valid d rest (some (b1, bd1)) := by
            simp [select_min, hv, hlt]
          have H := ih (some (b1, bd1)) (Or.inr ⟨b1, bd1, rfl, hbd1, hbv1⟩)
          constructor
          · intro h
            rw [hrw] at h
            obtain ⟨h1, -⟩ := H.1 h
            cases h1
          · intro b bd h
            rw [hrw] at h
            obtain ⟨hbd, hbv, hmem, hmin, haccle⟩ := H.2 b bd h
            refine ⟨hbd, hbv, ?_, ?_, ?_⟩
            · rcases hmem with hm | hm
              · exact Or.inl (List.mem_cons_of_mem _ hm)
              · exact Or.inr hm
            · intro tp2 htp2 hv2
              rcases List.mem_cons.mp htp2 with rfl | hm
              · exact le_trans (haccle b1 bd1 rfl) (not_lt.mp hlt)
              · exact hmin tp2 hm hv2
            · intro b0 bd0 h0
              obtain ⟨-, rfl⟩ : b1 = b0 ∧ bd1 = bd0 := by
                simpa [Prod.mk.injEq] using h0
              exact haccle b1 bd1 rfl
    · have hvf : valid tp = false := by simpa using hv
      have hrw : select_min valid d (tp :: rest) acc = select_min valid d rest acc := by
        simp [select_min, hvf]
      have H := ih acc hacc
      constructor
      · intro h
        rw [hrw] at h
        obtain ⟨h1, h2⟩ := H.1 h
        refine ⟨h1, ?_⟩
        intro tp2 htp2
        rcases List.mem_cons.mp htp2 with rfl | hm
        · exact hvf
        · exact h2 tp2 hm
      · intro b bd h
        rw [hrw] at h
        obtain ⟨hbd, hbv, hmem, hmin, haccle⟩ := H.2 b bd h
        refine ⟨hbd, hbv, ?_, ?_, haccle⟩
        · rcases hmem with hm | hm
          · exact Or.inl (List.mem_cons_of_mem _ hm)
          · exact Or.inr hm
        · intro tp2 htp2 hv2
          rcases List.mem_cons.mp htp2 with rfl | hm
          · exact absurd hv2 hv
          · exact hmin tp2 hm hv2

theorem init_counts_fold (l : List Edge) (d : ℕ → Option ℕ) (j : ℕ) :
    (l.foldl (fun d2 e => fun j2 => if j2 = e.eid then some 0 else d2 j2) d) j =
      if j ∈ l.map Edge.eid then some 0 else d j := by
  induction l generalizing d with
  | nil => simp
  | cons e t ih =>
    simp only [List.foldl_cons, ih, List.map_cons, List.mem_cons]
    by_cases hj : j ∈ t.map Edge.eid
    · simp [hj]
    · by_cases hje : j = e.eid <;> simp [hj, hje]

theorem CLe_refl (d : ℕ → Option ℕ) : CLe d d :=
  fun _ => ⟨Iff.rfl, fun v hv => ⟨v, hv, le_refl v⟩⟩

theorem CLe_trans {a b c : ℕ → Option ℕ} (h1 : CLe a b) (h2 : CLe b c) : CLe a c := by
  intro j
  refine ⟨(h1 j).1.trans (h2 j).1, ?_⟩
  intro v hv
  obtain ⟨v2, hv2, hle⟩ := (h1 j).2 v hv
  obtain ⟨v3, hv3, hle2⟩ := (h2 j).2 v2 hv2
  exact ⟨v3, hv3, le_trans hle hle2⟩

theorem CLe_bump (d : ℕ → Option ℕ) (k : ℕ) : CLe d (bump_count d k) := by
  intro j
  unfold bump_count
  by_cases hj : j = k
  · subst hj
    simp only [if_pos rfl]
    constructor
    · cases hdk : d j <;> simp [hdk]
    · intro v hv
      rw [hv]
      exact ⟨v + 1, rfl, Nat.le_succ v⟩
  · simp only [if_neg hj]
    refine ⟨by simp, fun v hv => ⟨v, hv, le_refl v⟩⟩

theorem CLe_record (d : ℕ → Option ℕ) (w : Waypoint) : CLe d (record_waypoint d w) := by
  cases hw : w.edge with
  | none => simpa [record_waypoint, hw] using CLe_refl d
  | some e => simpa [record_waypoint, hw] using CLe_bump d e.eid

theorem CLe_foldl_bump (l : List Edge) (d : ℕ → Option ℕ) :
    CLe d (l.foldl (fun d2 e => bump_count d2 e.eid) d) := by
  induction l generalizing d with
  | nil => simpa using CLe_refl d
  | cons e t ih => simpa using CLe_trans (CLe_bump d e.eid) (ih _)

theorem CLe_foldl_record (sp : List Waypoint) (d : ℕ → Option ℕ) :
    CLe d (sp.foldl record_waypoint d) := by
  induction sp generalizing d with
  | nil => simpa using CLe_refl d
  | cons w t ih => simpa using CLe_trans (CLe_record d w) (ih _)

theorem CLe_step_counts (d : ℕ → Option ℕ) (sp : List Waypoint) (cr : List Edge) :
    CLe d (step_counts d sp cr) := by
  unfold step_counts
  exact CLe_trans (CLe_foldl_record sp d) (CLe_foldl_bump cr _)

/-- C1: the claim says a corner hit applies the identical three-way layer
classification as the single-segment case, so a corner of two layer-0 device
edges should record a corner collision and then scatter or reflect.  The
source instead tests `layer == 1` in the corner branch (under the comment
`Device edge`), so the layer-0 corner below falls through to the generic
floating-contact branch and is absorbed and re-injected: both corner edges
have layer 0, the absorption draw (0) is below `p_ohmic_absorb = 1`, and the
resulting waypoints are `CABSORBED` at the higher-layer edge followed by
`INJECTING`, not `CCOLLISION` followed by a scatter or reflect.  The last
conjuncts certify the square-root table on every argument this evaluation
feeds it. -/
theorem corner_layer_zero_reinjects :
    ret_states (step_position envC1 0 (0, 1) 0 0 false).1 =
      [(.CABSORBED, some 0), (.INJECTING, none)] ∧
    envC1.edges.map Edge.layer = [0, 0] ∧
    envC1.pOhmic = 1 ∧ envC1.rand 0 = 0 ∧
    sqrtTab1 4 * sqrtTab1 4 = 4 ∧ (0 : ℚ) ≤ sqrtTab1 4 ∧
    sqrtTab1 ((1 - biasEps) ^ 2) * sqrtTab1 ((1 - biasEps) ^ 2) = (1 - biasEps) ^ 2 ∧
    (0 : ℚ) ≤ sqrtTab1 ((1 - biasEps) ^ 2) ∧
    sqrtTab1 ((1 - biasEps) ^ 2 / 4) * sqrtTab1 ((1 - biasEps) ^ 2 / 4) =
      (1 - biasEps) ^ 2 / 4 ∧
    (0 : ℚ) ≤ sqrtTab1 ((1 - biasEps) ^ 2 / 4) := by
  refine ⟨?_, by norm_num [envC1, baseEnv, e0C1, e1C1], by norm_num [envC1, baseEnv],
    by norm_num [envC1, baseEnv], by norm_num [sqrtTab1], by norm_num [sqrtTab1],
    by norm_num [sqrtTab1, biasEps], by norm_num [sqrtTab1, biasEps],
    by norm_num [sqrtTab1, biasEps], by norm_num [sqrtTab1, biasEps]⟩
  norm_num [step_position, envC1, baseEnv, e0C1, e1C1, get_sorted_intersections,
    get_intersections, get_ts_us, get_crosses, sortAsc, insertAsc, sqrtTab1, biasEps,
    corner_branch, single_edge_branch, get_n_f_intersection, ret_states,
    List.filterMap_cons, List.filterMap_nil, List.map_cons, List.map_nil,
    List.length_cons, List.length_nil]

/-- C2: a normal step always returns a nonempty waypoint list; its last
waypoint has state `ABSORBED` exactly when that waypoint carries a segment of
the grounded layer 2, which is precisely the loop exit condition of
`run_simulation`; an absorption waypoint at any non-grounded layer forces the
last waypoint of the step to be `INJECTING`, so the loop continues; and any
trajectory the loop completes ends in a grounded absorption. -/
theorem grounded_absorption_terminates :
    (∀ env k nf x y dbg sp cr k2,
      step_position env k nf x y dbg = (.pair sp cr, k2) →
      sp ≠ [] ∧
      (∀ w, sp.getLast? = some w →
        (w.state = .ABSORBED ↔ ∃ e, w.edge = some e ∧ e.layer = 2)) ∧
      ((∃ w ∈ sp, (w.state = .ABSORBED ∨ w.state = .CABSORBED) ∧
          ∃ e, w.edge = some e ∧ e.layer ≠ 2) →
        ∃ wl, sp.getLast? = some wl ∧ wl.state = .INJECTING)) ∧
    (∀ env fuel k nf x y dbg acc traj k2,
      run_loop env fuel k nf x y dbg acc = some (traj, k2) →
      ∃ wl e, traj.getLast? = some wl ∧ wl.state = .ABSORBED ∧
        wl.edge = some e ∧ e.layer = 2) := by
  constructor
  · intro env k nf x y dbg sp cr k2 h
    have hs := shape_conclusions sp (step_position_shape env k nf x y dbg sp cr k2 h)
    exact ⟨hs.1, hs.2.1, hs.2.2.1⟩
  · intro env fuel k nf x y dbg acc traj k2 h
    exact run_loop_grounded env fuel k nf x y dbg acc traj k2 h

/-- C2 witness: the grounded-absorption environment at concrete inputs. -/
theorem grounded_absorption_terminates_witness :
    (trajG ≠ [] ∧
      (∀ w, trajG.getLast? = some w →
        (w.state = .ABSORBED ↔ ∃ e, w.edge = some e ∧ e.layer = 2)) ∧
      ((∃ w ∈ trajG, (w.state = .ABSORBED ∨ w.state = .CABSORBED) ∧
          ∃ e, w.edge = some e ∧ e.layer ≠ 2) →
        ∃ wl, trajG.getLast? = some wl ∧ wl.state = .INJECTING)) ∧
    (∃ wl e, trajG.getLast? = some wl ∧ wl.state = .ABSORBED ∧
      wl.edge = some e ∧ e.layer = 2) :=
  ⟨grounded_absorption_terminates.1 envG 0 (0, 1) 0 0 false trajG [] 1
      (by with_unfolding_all rfl),
   grounded_absorption_terminates.2 envG 1 0 (0, 1) 0 0 false [] trajG 1
      (by with_unfolding_all rfl)⟩

/-- C3: the claim says the failed debug containment check terminates the
trajectory with an `ERROR` waypoint without raising.  The error path of
`_step_position` does return the bare one-element list, and the check is
skipped when debug is off (every non-debug return is a proper pair); but
`run_simulation` unpacks every return into `step_params, line_crosses`, and a
bare one-element list cannot be unpacked into two names, so the call raises a
`ValueError` instead of recording the waypoint. -/
theorem debug_error_return_unpacks_badly :
    (∀ env k nf x y, env.inDevice x y = false →
      step_position env k nf x y true = (.single [⟨nf, x, y, .ERROR, none⟩], k) ∧
      unpack_step (step_position env k nf x y true).1 =
        .error valueErrorMsg) ∧
    (∀ env k nf x y, ∃ sp cr, (step_position env k nf x y false).1 = .pair sp cr) := by
  constructor
  · intro env k nf x y h
    have hstep : step_position env k nf x y true =
        (.single [⟨nf, x, y, .ERROR, none⟩], k) := by
      simp [step_position, h]
    rw [hstep]
    exact ⟨rfl, rfl⟩
  · exact fun env k nf x y => step_position_no_debug_pair env k nf x y

/-- C3 witness: the always-out-of-bounds environment at concrete inputs. -/
theorem debug_error_return_unpacks_badly_witness :
    (step_position envOut 0 (0, 1) 3 4 true =
        (.single [⟨(0, 1), 3, 4, .ERROR, none⟩], 0) ∧
      unpack_step (step_position envOut 0 (0, 1) 3 4 true).1 =
        .error valueErrorMsg) ∧
    (∃ sp cr, (step_position baseEnv 0 (0, 1) 0 0 false).1 = .pair sp cr) :=
  ⟨debug_error_return_unpacks_badly.1 envOut 0 (0, 1) 3 4 rfl,
   debug_error_return_unpacks_badly.2 baseEnv 0 (0, 1) 0 0⟩

/-- C4 counterexample: the claim says every reported intersection point equals
the exact crossing point plus epsilon times the unit step direction, away from
the step start.  The source subtracts the bias vector, so the point below is
the exact crossing `(3/2, 2)` minus the bias, which differs from the claimed
plus-bias point.  The unbiased call exhibits the exact crossing point, and the
final conjuncts certify the square-root table at its only argument. -/
theorem get_intersections_bias_direction_cex :
    get_intersections s4tab [e4c] (0, 0) (3, 4) false = [(e4c, 3 / 2, 2)] ∧
    get_intersections s4tab [e4c] (0, 0) (3, 4) true =
      [(e4c, 3 / 2 - biasEps * 3 / 5, 2 - biasEps * 4 / 5)] ∧
    (3 / 2 - biasEps * 3 / 5 : ℚ) ≠ 3 / 2 + biasEps * 3 / 5 ∧
    (2 - biasEps * 4 / 5 : ℚ) ≠ 2 + biasEps * 4 / 5 ∧
    s4tab 25 = 5 ∧ s4tab 25 * s4tab 25 = 25 ∧ (0 : ℚ) ≤ s4tab 25 := by
  refine ⟨?_, ?_, by norm_num [biasEps], by norm_num [biasEps], by norm_num [s4tab],
    by norm_num [s4tab], by norm_num [s4tab]⟩ <;>
    norm_num [get_intersections, get_ts_us, e4c, s4tab, biasEps,
      List.filterMap_cons, List.filterMap_nil]

/-- C4 (amended): every intersection reported by the biased intersection
engine lies on a segment whose outward normal has negative dot product with
the step direction, and its reported point equals the exact crossing point
minus (not plus) epsilon times the step displacement divided by the computed
step length, that is, the perturbation is towards the step start. -/
theorem get_intersections_reported_points (s : ℚ → ℚ) (edges : List Edge)
    (p pNew : ℚ × ℚ) (L : ℚ)
    (hL : s ((pNew.1 - p.1) ^ 2 + (pNew.2 - p.2) ^ 2) = L) :
    ∀ q ∈ get_intersections s edges p pNew true,
      (pNew.1 - p.1) * q.1.normal.1 + (pNew.2 - p.2) * q.1.normal.2 < 0 ∧
      ∃ t u, get_ts_us (-(pNew.1 - p.1)) (p.1 - q.1.xs.1) (q.1.xs.1 - q.1.xs.2)
          (-(pNew.2 - p.2)) (p.2 - q.1.ys.1) (q.1.ys.1 - q.1.ys.2) = some (t, u) ∧
        0 ≤ t ∧ t ≤ 1 ∧ 0 ≤ u ∧ u ≤ 1 ∧
        (q.1.xs.1 + u * (q.1.xs.2 - q.1.xs.1) ≠ p.1 ∨
          q.1.ys.1 + u * (q.1.ys.2 - q.1.ys.1) ≠ p.2) ∧
        q.2.1 = q.1.xs.1 + u * (q.1.xs.2 - q.1.xs.1) - biasEps * (pNew.1 - p.1) / L ∧
        q.2.2 = q.1.ys.1 + u * (q.1.ys.2 - q.1.ys.1) - biasEps * (pNew.2 - p.2) / L := by
  intro q hq
  simp only [get_intersections, List.mem_filterMap] at hq
  obtain ⟨e, hmem, he⟩ := hq
  rcases htu : get_ts_us (-(pNew.1 - p.1)) (p.1 - e.xs.1) (e.xs.1 - e.xs.2)
      (-(pNew.2 - p.2)) (p.2 - e.ys.1) (e.ys.1 - e.ys.2) with - | ⟨t, u⟩
  · rw [htu] at he
    simp at he
  · rw [htu] at he
    dsimp only at he
    simp only [if_true] at he
    by_cases hw : 0 ≤ t ∧ t ≤ 1 ∧ 0 ≤ u ∧ u ≤ 1
    · rw [if_pos hw] at he
      by_cases hd : (pNew.1 - p.1) * e.normal.1 + (pNew.2 - p.2) * e.normal.2 < 0
      · rw [if_pos hd] at he
        by_cases hne : e.xs.1 + u * (e.xs.2 - e.xs.1) ≠ p.1 ∨
            e.ys.1 + u * (e.ys.2 - e.ys.1) ≠ p.2
        · rw [if_pos hne] at he
          simp only [Option.some.injEq] at he
          subst he
          exact ⟨hd, t, u, htu, hw.1, hw.2.1, hw.2.2.1, hw.2.2.2, hne,
            by simp [hL], by simp [hL]⟩
        · rw [if_neg hne] at he
          cases he
      · rw [if_neg hd] at he
        cases he
    · rw [if_neg hw] at he
      cases he

/-- C4 witness: the amended statement at the concrete biased intersection. -/
theorem get_intersections_reported_points_witness :
    (((3, 4) : ℚ × ℚ).1 - ((0, 0) : ℚ × ℚ).1) * c4hit.1.normal.1 +
      (((3, 4) : ℚ × ℚ).2 - ((0, 0) : ℚ × ℚ).2) * c4hit.1.normal.2 < 0 ∧
    ∃ t u, get_ts_us (-(((3, 4) : ℚ × ℚ).1 - ((0, 0) : ℚ × ℚ).1))
        (((0, 0) : ℚ × ℚ).1 - c4hit.1.xs.1) (c4hit.1.xs.1 - c4hit.1.xs.2)
        (-(((3, 4) : ℚ × ℚ).2 - ((0, 0) : ℚ × ℚ).2))
        (((0, 0) : ℚ × ℚ).2 - c4hit.1.ys.1) (c4hit.1.ys.1 - c4hit.1.ys.2) =
          some (t, u) ∧
      0 ≤ t ∧ t ≤ 1 ∧ 0 ≤ u ∧ u ≤ 1 ∧
      (c4hit.1.xs.1 + u * (c4hit.1.xs.2 - c4hit.1.xs.1) ≠ ((0, 0) : ℚ × ℚ).1 ∨
        c4hit.1.ys.1 + u * (c4hit.1.ys.2 - c4hit.1.ys.1) ≠ ((0, 0) : ℚ × ℚ).2) ∧
      c4hit.2.1 = c4hit.1.xs.1 + u * (c4hit.1.xs.2 - c4hit.1.xs.1) -
        biasEps * (((3, 4) : ℚ × ℚ).1 - ((0, 0) : ℚ × ℚ).1) / 5 ∧
      c4hit.2.2 = c4hit.1.ys.1 + u * (c4hit.1.ys.2 - c4hit.1.ys.1) -
        biasEps * (((3, 4) : ℚ × ℚ).2 - ((0, 0) : ℚ × ℚ).2) / 5 :=
  get_intersections_reported_points s4tab [e4c] (0, 0) (3, 4) 5
    (by norm_num [s4tab]) c4hit
    (by norm_num [c4hit, get_intersections, get_ts_us, e4c, s4tab, biasEps,
      List.filterMap_cons, List.filterMap_nil])

/-- C5 counterexample: the claim says the truncated-step fraction equals the
distance ratio subtracted from the incoming fraction, which at the input below
is `1/2 - 1/4`.  The source instead scales the incoming fraction by one minus
the ratio, giving `3/8`.  The final conjuncts certify the square-root table at
its only argument, the squared distance ratio `1/16` whose root is `1/4`. -/
theorem get_n_f_intersection_cex :
    get_n_f_intersection s5tab (0, 1 / 2) (0, 0) (1, 0) (4, 0) = (0, 3 / 8) ∧
    get_n_f_intersection s5tab (0, 1 / 2) (0, 0) (1, 0) (4, 0) ≠ (0, 1 / 2 - 1 / 4) ∧
    s5tab (1 / 16) = 1 / 4 ∧ s5tab (1 / 16) * s5tab (1 / 16) = 1 / 16 ∧
    (0 : ℚ) ≤ s5tab (1 / 16) := by
  refine ⟨?_, ?_, by norm_num [s5tab], by norm_num [s5tab], by norm_num [s5tab]⟩ <;>
    norm_num [get_n_f_intersection, s5tab, Prod.ext_iff]

/-- C5 (amended): the fraction returned for a truncated step keeps the bin
index and equals the incoming fraction minus the incoming fraction times the
square root of the squared distance ratio, that is, the incoming fraction
scaled by one minus the traversed ratio, not the incoming fraction minus the
ratio. -/
theorem get_n_f_intersection_scaled (s : ℚ → ℚ) (nf : ℕ × ℚ) (p pInt pNew : ℚ × ℚ)
    (rho : ℚ)
    (h : s (((pInt.1 - p.1) ^ 2 + (pInt.2 - p.2) ^ 2) /
            ((pNew.1 - p.1) ^ 2 + (pNew.2 - p.2) ^ 2)) = rho) :
    get_n_f_intersection s nf p pInt pNew = (nf.1, nf.2 - nf.2 * rho) := by
  simp only [get_n_f_intersection, h, mul_sub, mul_one]

/-- C5 witness: the amended formula at the concrete truncated step. -/
theorem get_n_f_intersection_scaled_witness :
    get_n_f_intersection s5tab (0, 1 / 2) (0, 0) (1, 0) (4, 0) =
      (0, 1 / 2 - 1 / 2 * (1 / 4)) :=
  get_n_f_intersection_scaled s5tab (0, 1 / 2) (0, 0) (1, 0) (4, 0) (1 / 4)
    (by norm_num [s5tab])

/-- C6 counterexample: the claim says the associated boundary segment is
attached to the first waypoint of every branch.  In the non-absorbing
grounded branch the collision record carries `None`: the single grounded edge
below is struck (the branch emits a collision and a scatter waypoint), the
absorption draw (0) is not below `p_ohmic_absorb = 0`, and no waypoint of the
step carries any segment.  The final conjuncts certify the square-root table
on every argument this evaluation feeds it. -/
theorem grounded_collision_lacks_segment :
    ret_states (step_position envC6 0 (0, 1) 0 0 false).1 =
      [(.COLLISION, none), (.SCATTER, none)] ∧
    envC6.edges.map Edge.layer = [2] ∧ envC6.pOhmic = 0 ∧ envC6.pScatter = 1 ∧
    envC6.rand 0 = 0 ∧
    sqrtTab1 4 * sqrtTab1 4 = 4 ∧ (0 : ℚ) ≤ sqrtTab1 4 ∧
    sqrtTab1 ((1 - biasEps) ^ 2) * sqrtTab1 ((1 - biasEps) ^ 2) = (1 - biasEps) ^ 2 ∧
    (0 : ℚ) ≤ sqrtTab1 ((1 - biasEps) ^ 2) ∧
    sqrtTab1 ((1 - biasEps) ^ 2 / 4) * sqrtTab1 ((1 - biasEps) ^ 2 / 4) =
      (1 - biasEps) ^ 2 / 4 ∧
    (0 : ℚ) ≤ sqrtTab1 ((1 - biasEps) ^ 2 / 4) := by
  refine ⟨by with_unfolding_all rfl, by norm_num [envC6, baseEnv, egC6],
    by norm_num [envC6, baseEnv], by norm_num [envC6, baseEnv],
    by norm_num [envC6, baseEnv], by norm_num [sqrtTab1], by norm_num [sqrtTab1],
    by norm_num [sqrtTab1, biasEps], by norm_num [sqrtTab1, biasEps],
    by norm_num [sqrtTab1, biasEps], by norm_num [sqrtTab1, biasEps]⟩

/-- C6 (amended): within every normal step, every waypoint after the first
carries no segment, and at most one waypoint of the step carries a segment,
so one physical event increments at most one counter at most once; the
segment is however not attached in every branch (see the counterexample). -/
theorem segment_attached_at_most_once :
    ∀ env k nf x y dbg sp cr k2,
      step_position env k nf x y dbg = (.pair sp cr, k2) →
      (∀ w ∈ sp.tail, w.edge = none) ∧
      (sp.filter (fun w => w.edge.isSome)).length ≤ 1 := by
  intro env k nf x y dbg sp cr k2 h
  have hs := shape_conclusions sp (step_position_shape env k nf x y dbg sp cr k2 h)
  exact ⟨hs.2.2.2.1, hs.2.2.2.2⟩

/-- C6 witness: the amended statement at the concrete corner step. -/
theorem segment_attached_at_most_once_witness :
    (∀ w ∈ spC1.tail, w.edge = none) ∧
    (spC1.filter (fun w => w.edge.isSome)).length ≤ 1 :=
  segment_attached_at_most_once envC1 0 (0, 1) 0 0 false spC1 [] 1
    (by norm_num [spC1, ret_steps, step_position, envC1, baseEnv, e0C1, e1C1,
      get_sorted_intersections, get_intersections, get_ts_us, get_crosses, sortAsc,
      insertAsc, sqrtTab1, biasEps, corner_branch, single_edge_branch,
      get_n_f_intersection, List.filterMap_cons, List.filterMap_nil, List.map_cons,
      List.map_nil, List.length_cons, List.length_nil])

/-- C7: the claim says the default stored-states set retains every waypoint
including the `ERROR` sentinel.  `ALL_STATES = set(range(11))` is the set
`{0, ..., 10}` while the `IntEnum` values run from 1 to 11, so membership in
the default set holds for every state except `ERROR` (value 11), and the
retention filter of `run_simulation` drops an `ERROR` waypoint. -/
theorem all_states_excludes_error_sentinel :
    (∀ st : TrajectoryState, st.val ∈ ALL_STATES ↔ st ≠ .ERROR) ∧
    store_filter ALL_STATES [⟨(0, 1), 0, 0, .ERROR, none⟩] = [] ∧
    TrajectoryState.ERROR.val ∉ ALL_STATES := by decide

/-- C8: the claim says the synthetic corner segment passes through the true
intersection point of the two edge lines and is perpendicular to the line
joining that point to the midpoint of two fixed-radius reference points.  At
the corner below the two edge lines meet at `(0, 2)`, but the code divides by
`intersection_y` where its own comment asks for a line through the
intersection point, so the constructed virtual edge runs from `(1000, 500/3)`
to `(-1000, -500/3)`: the intersection point is not on it (nonzero cross
product) and it is not perpendicular to the segment joining `(0, 2)` to the
midpoint `(-500, 506/3)` of the two chosen reference points `(-1000, 2)` and
`(0, 1006/3)` (nonzero dot product).  Moreover the two reference points have
different distances from the intersection (the code measures `distance_b`
from the second endpoint of the first edge), so they are not at one fixed
radius.  The last conjuncts certify the square-root table on every argument
this evaluation feeds it. -/
theorem corner_virtual_edge_misplaced :
    corner_virtual_edge s8tab r8 (0, 1) e8a e8b =
      some ((1000, 500 / 3), (-1000, -500 / 3)) ∧
    calc_int_of_two_lines (1, 2) (3, 2) (0, 1) (0, 5) = some (0, 2) ∧
    ((-1000 : ℚ) - 1000) * (2 - 500 / 3) - (-500 / 3 - 500 / 3) * (0 - 1000) ≠ 0 ∧
    ((-1000 : ℚ) - 1000) * (-500 - 0) + (-500 / 3 - 500 / 3) * (506 / 3 - 2) ≠ 0 ∧
    ((-1000 : ℚ) + 0) / 2 = -500 ∧ ((2 : ℚ) + 1006 / 3) / 2 = 506 / 3 ∧
    ((-1000 : ℚ) - 0) ^ 2 + ((2 : ℚ) - 2) ^ 2 = 1000 ^ 2 ∧
    ((0 : ℚ) - 0) ^ 2 + ((1006 : ℚ) / 3 - 2) ^ 2 = (1000 / 3) ^ 2 ∧
    ((1000 : ℚ)) ^ 2 ≠ (1000 / 3) ^ 2 ∧
    s8tab 1 = 1 ∧ s8tab 9 = 3 ∧ s8tab 1000000 = 1000 ∧
    s8tab (1000000 / 9) = 1000 / 3 ∧
    s8tab 9 * s8tab 9 = 9 ∧ s8tab 1000000 * s8tab 1000000 = 1000000 ∧
    s8tab (1000000 / 9) * s8tab (1000000 / 9) = 1000000 / 9 := by
  refine ⟨?_, by norm_num [calc_int_of_two_lines], by norm_num, by norm_num,
    by norm_num, by norm_num, by norm_num, by norm_num, by norm_num,
    by norm_num [s8tab], by norm_num [s8tab], by norm_num [s8tab],
    by norm_num [s8tab], by norm_num [s8tab], by norm_num [s8tab],
    by norm_num [s8tab]⟩
  norm_num [corner_virtual_edge, s8tab, r8, e8a, e8b]

/-- C9: when the mirrored line crosses no Fermi-surface polygon edge on a bin
other than the current one, `_specular` fails with the
reflection-construction error; otherwise it returns a candidate crossing from
the list, on a bin different from the current one, whose surface-sample
coordinate is nearest in the Euclidean distance to the projected current
point among all such candidates. -/
theorem specular_error_or_nearest (s : ℚ → ℚ) (r dr : ℕ → ℚ × ℚ) (nf : ℕ × ℚ)
    (l : List (ℕ × ℚ)) :
    ((∀ tp ∈ l, tp.1 = nf.1) →
      specular s r dr nf l =
        .error specularErrorMsg) ∧
    ((∃ tp ∈ l, tp.1 ≠ nf.1) →
      ∃ b, specular s r dr nf l = .ok b ∧ b ∈ l ∧ b.1 ≠ nf.1 ∧
        ∀ tp ∈ l, tp.1 ≠ nf.1 →
          spec_dist s r ((r nf.1).1 + (1 - nf.2) * (dr nf.1).1)
              ((r nf.1).2 + (1 - nf.2) * (dr nf.1).2) b.1 ≤
            spec_dist s r ((r nf.1).1 + (1 - nf.2) * (dr nf.1).1)
              ((r nf.1).2 + (1 - nf.2) * (dr nf.1).2) tp.1) := by
  have H := select_min_spec (fun tp => tp.1 != nf.1)
      (fun tp => spec_dist s r ((r nf.1).1 + (1 - nf.2) * (dr nf.1).1)
        ((r nf.1).2 + (1 - nf.2) * (dr nf.1).2) tp.1) l none (Or.inl rfl)
  constructor
  · intro hall
    rcases hres : select_min (fun tp => tp.1 != nf.1)
        (fun tp => spec_dist s r ((r nf.1).1 + (1 - nf.2) * (dr nf.1).1)
          ((r nf.1).2 + (1 - nf.2) * (dr nf.1).2) tp.1) l none with - | ⟨b, bd⟩
    · simp only [specular]
      rw [hres]
    · obtain ⟨-, hbv, hmem, -, -⟩ := H.2 b bd hres
      rcases hmem with hm | hm
      · have hb := hall b hm
        simp [hb] at hbv
      · cases hm
  · rintro ⟨tp0, htp0, hne⟩
    rcases hres : select_min (fun tp => tp.1 != nf.1)
        (fun tp => spec_dist s r ((r nf.1).1 + (1 - nf.2) * (dr nf.1).1)
          ((r nf.1).2 + (1 - nf.2) * (dr nf.1).2) tp.1) l none with - | ⟨b, bd⟩
    · obtain ⟨-, hforall⟩ := H.1 hres
      have h2 := hforall tp0 htp0
      dsimp only at h2
      have h3 : (tp0.1 != nf.1) = true := bne_iff_ne.mpr hne
      rw [h2] at h3
      cases h3
    · obtain ⟨hbd, hbv, hmem, hmin, -⟩ := H.2 b bd hres
      refine ⟨b, ?_, ?_, bne_iff_ne.mp hbv, ?_⟩
      · simp only [specular]
        rw [hres]
      · rcases hmem with hm | hm
        · exact hm
        · cases hm
      · intro tp htp hnetp
        have hm2 := hmin tp htp (bne_iff_ne.mpr hnetp)
        rw [hbd] at hm2
        exact hm2

/-- C9 witness: a one-candidate list on the current bin fails, and a
one-candidate list on another bin is returned as the nearest crossing. -/
theorem specular_error_or_nearest_witness :
    specular (fun _ => (0 : ℚ)) (fun _ => ((0 : ℚ), (0 : ℚ)))
        (fun _ => ((0 : ℚ), (0 : ℚ))) (0, 1) [(0, 1 / 2)] =
      .error specularErrorMsg ∧
    ∃ b, specular (fun _ => (0 : ℚ)) (fun _ => ((0 : ℚ), (0 : ℚ)))
          (fun _ => ((0 : ℚ), (0 : ℚ))) (0, 1) [(1, 1 / 2)] = .ok b ∧
      b ∈ [((1 : ℕ), (1 : ℚ) / 2)] ∧ b.1 ≠ 0 ∧
      ∀ tp ∈ [((1 : ℕ), (1 : ℚ) / 2)], tp.1 ≠ 0 →
        spec_dist (fun _ => (0 : ℚ)) (fun _ => ((0 : ℚ), (0 : ℚ)))
            (0 + (1 - 1) * 0) (0 + (1 - 1) * 0) b.1 ≤
          spec_dist (fun _ => (0 : ℚ)) (fun _ => ((0 : ℚ), (0 : ℚ)))
            (0 + (1 - 1) * 0) (0 + (1 - 1) * 0) tp.1 :=
  ⟨(specular_error_or_nearest (fun _ => (0 : ℚ)) (fun _ => ((0 : ℚ), (0 : ℚ)))
      (fun _ => ((0 : ℚ), (0 : ℚ))) (0, 1) [(0, 1 / 2)]).1 (by simp),
   (specular_error_or_nearest (fun _ => (0 : ℚ)) (fun _ => ((0 : ℚ), (0 : ℚ)))
      (fun _ => ((0 : ℚ), (0 : ℚ))) (0, 1) [(1, 1 / 2)]).2
      ⟨(1, 1 / 2), by simp, by simp⟩⟩

/-- C10: the counter dictionary built by `run_simulation` has exactly the
frame edges and ohmic lines as keys, each bound to zero; one loop iteration
only ever bumps existing keys, preserving the key set and never decreasing
any value; a checked bump of a present key adds exactly one; and a waypoint
whose edge is `None` or not a known key leaves every counter unchanged. -/
theorem counter_map_invariants :
    (∀ edges lines j, init_counts edges lines j =
        if j ∈ (edges ++ lines).map Edge.eid then some 0 else none) ∧
    (∀ d steps crosses, CLe d (step_counts d steps crosses)) ∧
    (∀ d k v, d k = some v → bump_count d k k = some (v + 1)) ∧
    (∀ (d : ℕ → Option ℕ) (w : Waypoint),
      (w.edge = none ∨ ∃ e, w.edge = some e ∧ d e.eid = none) →
      ∀ j, record_waypoint d w j = d j) := by
  refine ⟨fun edges lines j => init_counts_fold (edges ++ lines) _ j,
    fun d steps crosses => CLe_step_counts d steps crosses,
    fun d k v hv => by simp [bump_count, hv], ?_⟩
  intro d w h j
  rcases h with hnone | ⟨e, he, hd⟩
  · simp [record_waypoint, hnone]
  · simp only [record_waypoint, he, bump_count]
    by_cases hj : j = e.eid
    · subst hj
      simp [hd]
    · simp [hj]

/-- C10 witness: the invariants at a concrete one-edge counter dictionary. -/
theorem counter_map_invariants_witness :
    init_counts [egC6] [] 0 =
      (if (0 : ℕ) ∈ ([egC6] ++ []).map Edge.eid then some 0 else none) ∧
    CLe (init_counts [egC6] []) (step_counts (init_counts [egC6] []) [] []) ∧
    bump_count (init_counts [egC6] []) 0 0 = some 1 ∧
    record_waypoint (init_counts [egC6] []) ⟨(0, 1), 0, 0, .PROPAGATE, none⟩ 5 =
      init_counts [egC6] [] 5 :=
  ⟨counter_map_invariants.1 [egC6] [] 0,
   counter_map_invariants.2.1 (init_counts [egC6] []) [] [],
   counter_map_invariants.2.2.1 (init_counts [egC6] []) 0 0 (by
      rw [counter_map_invariants.1 [egC6] [] 0]
      norm_num [egC6]),
   counter_map_invariants.2.2.2 (init_counts [egC6] [])
      ⟨(0, 1), 0, 0, .PROPAGATE, none⟩ (Or.inl rfl) 5⟩
